import Mathlib

/-!
Verification of the launchdarkly/eventsource SSE library.

This file shallowly embeds the parts of the library that the verified
properties talk about:

* the SSE wire codec (encoder and decoder),
* the server owner goroutine (`Server.run` in `server.go`), and
* the stream client lifecycle (`Stream.Close`, `Stream.Restart`,
  `Stream.connect` in `stream.go`).

Go strings are modelled as `List Char`; Go channels are modelled as
explicit queues inside a state record, with Go's runtime semantics made
explicit (a send on a closed channel, or a close of a closed channel, is a
runtime panic, recorded in a `panicked` flag; a blocking send with no
possible receiver is recorded in a `stuck` flag).
-/

namespace Eventsource

/-! ## Wire codec

The encoder (`Encoder.Encode`, `sseStreamingWriter.Write`,
`streamingNewlineSplitter`) is in the source, embedded in
`src/stream_requests_test.go` after the first document separator; the
definitions below are translated from it.  The decoder has no
implementation file under `src/` (only its tests, in the decoder test
document, and its callers); it is modelled from the specification,
section 4.1.
-/

/-- Splits a character list on the newline character, in the way Go's
`strings.Split(s, "\n")` does: the result is always non-empty, an empty
input yields `[[]]`, and a trailing newline yields a final empty segment. -/
def splitNl : List Char → List (List Char)
  | [] => [[]]
  | c :: rest =>
    if c = '\n' then [] :: splitNl rest
    else
      match splitNl rest with
      | [] => [[c]]
      | h :: t => (c :: h) :: t

/-- Joins segments with a newline separator (inverse of `splitNl`). -/
def joinNl : List (List Char) → List Char
  | [] => []
  | [x] => x
  | x :: y :: rest => x ++ '\n' :: joinNl (y :: rest)

/-- One entry of the encoder's `encFields` loop (`Encoder.Encode`, embedded
encoder source): a field with an empty value is skipped; otherwise the
value is split on newlines (`strings.Split(value, "\n")`) and one
`<prefix><segment>\n` line is written per segment. -/
def encodeField (pre value : List Char) : List Char :=
  if value = [] then []
  else ((splitNl value).map (fun s => pre ++ s ++ ['\n'])).flatten

/-- The token stream the `streamingNewlineSplitter` hands to the writer for
one `Write` call, at line granularity: each newline-terminated line is a
token with its newline retained, the final unterminated segment is a token
without one, and input ending in a newline (or empty input) yields a final
empty token.  The splitter's 1000-byte buffer limit can additionally cut an
overlong line into several tokens of which only the last carries the
newline; since the writer writes a `data: ` prefix only when the previous
token ended in a newline and appends a newline only after the last token,
those cuts do not change the bytes written, so they are not represented. -/
def withNl : List (List Char) → List (List Char)
  | [] => []
  | [x] => [x]
  | x :: y :: rest => (x ++ ['\n']) :: withNl (y :: rest)

/-- The loop of `sseStreamingWriter.Write` (embedded encoder source):
`startNewEvent` starts true; each token is preceded by `data: ` when
`startNewEvent` holds and sets `startNewEvent` to whether it ends in a
newline (`strings.HasSuffix(text, "\n")`); after the loop a final newline
is written when the last token did not end in one. -/
def writeTokens : Bool → List (List Char) → List Char
  | startNew, [] => if startNew then [] else ['\n']
  | startNew, t :: rest =>
      (if startNew then "data: ".data else []) ++ t ++
        writeTokens (t.getLast? == some '\n') rest

/-- One call of `sseStreamingWriter.Write` on a payload. -/
def sseWrite (p : List Char) : List Char :=
  writeTokens true (withNl (splitNl p))

/-- `Encoder.Encode` for an event (embedded encoder source): the `id: ` and
`event: ` field lines, then the payload streamed through
`sseStreamingWriter` by `io.Copy` - the library's events expose the payload
as a `strings.Reader` (`codec_test.go` line 26), whose `WriteTo` makes
`io.Copy` hand the whole payload to a single `Write` call - then, when the
copy wrote nothing (empty payload), the mandatory `data: \n` line, and
finally the extra terminating newline. -/
def Encoder.Encode (id name payload : List Char) : List Char :=
  encodeField "id: ".data id ++
  encodeField "event: ".data name ++
  (if payload = [] then "data: ".data ++ ['\n'] else sseWrite payload) ++
  ['\n']

/-- A decoded event: the three fields of the round-trip property plus the
running last-event-id snapshot reported on the event. -/
structure DecEvent where
  id : List Char
  name : List Char
  payload : List Char
  lastEventID : List Char
  deriving DecidableEq, Repr

/-- Decoder state while accumulating one record. -/
structure DecState where
  rid : Option (List Char)
  rname : Option (List Char)
  rdata : List (List Char)
  lastEventID : List Char
  events : List DecEvent
  deriving DecidableEq, Repr

/-- Splits a line at its first colon: returns the field name and, when a
colon is present, the raw value after it. -/
def splitAtColon : List Char → List Char × Option (List Char)
  | [] => ([], none)
  | c :: rest =>
    if c = ':' then ([], some rest)
    else
      let p := splitAtColon rest
      (c :: p.1, p.2)

/-- Strips a single leading space from a field value. -/
def stripOneSpace : List Char → List Char
  | ' ' :: rest => rest
  | l => l

/-- Tests whether a string contains a NUL byte. -/
def hasNul (s : List Char) : Bool :=
  s.any (fun c => c = Char.ofNat 0)

/-- Modelled from the spec: one step of `Decoder.Decode` processing a single
line (the file `decoder.go` is not under `src/`; the decoder rules are taken
from specification section 4.1 and are pinned by the decoder tests).  A
blank line terminates a record and emits it unless the record has no data,
no event and no id; a line starting with a colon is a comment; otherwise
the line is a field, split at the first colon with one leading space of the
value stripped; an `id` value containing a NUL byte is ignored, any other
`id` value (including the empty one) replaces the running last-event-id;
multiple `data` values are joined with newlines. -/
def decodeLine (st : DecState) (line : List Char) : DecState :=
  if line = [] then
    if st.rid.isSome || st.rname.isSome || !st.rdata.isEmpty then
      { rid := none, rname := none, rdata := [],
        lastEventID := st.lastEventID,
        events := st.events ++
          [{ id := st.rid.getD [], name := st.rname.getD [],
             payload := joinNl st.rdata, lastEventID := st.lastEventID }] }
    else
      st
  else if line.head? = some ':' then
    st
  else
    let p := splitAtColon line
    let value := stripOneSpace (p.2.getD [])
    if p.1 = "id".data then
      if hasNul value then st
      else { st with rid := some value, lastEventID := value }
    else if p.1 = "event".data then
      { st with rname := some value }
    else if p.1 = "data".data then
      { st with rdata := st.rdata ++ [value] }
    else
      st

/-- Initial decoder state with a given initial last-event-id. -/
def initDecState (lastID : List Char) : DecState :=
  { rid := none, rname := none, rdata := [], lastEventID := lastID, events := [] }

/-- Modelled from the spec: repeatedly calling `Decoder.Decode` until EOF on
a complete input, collecting every emitted event. -/
def decodeAll (input : List Char) : List DecEvent :=
  ((splitNl input).foldl decodeLine (initDecState [])).events

/-! ### Lemmas about `splitNl` -/

theorem splitNl_ne_nil (s : List Char) : splitNl s ≠ [] := by
  induction s with
  | nil => simp [splitNl]
  | cons c rest ih =>
    simp only [splitNl]
    split
    · simp
    · cases h : splitNl rest with
      | nil => simp
      | cons a t => simp

theorem mem_splitNl_no_newline (s : List Char) :
    ∀ x ∈ splitNl s, '\n' ∉ x := by
  induction s with
  | nil =>
    intro x hx
    simp [splitNl] at hx
    simp [hx]
  | cons c rest ih =>
    intro x hx
    simp only [splitNl] at hx
    split at hx
    · rcases List.mem_cons.mp hx with h | h
      · simp [h]
      · exact ih x h
    · rename_i hc
      cases h : splitNl rest with
      | nil => exact absurd h (splitNl_ne_nil rest)
      | cons a t =>
        rw [h] at hx
        rcases List.mem_cons.mp hx with h1 | h2
        · subst h1
          intro hmem
          rcases List.mem_cons.mp hmem with hm | hm
          · exact hc hm.symm
          · exact ih a (by simp [h]) hm
        · exact ih x (by simp [h, h2])

theorem splitNl_cons_newline (rest : List Char) :
    splitNl ('\n' :: rest) = [] :: splitNl rest := by
  simp [splitNl]

theorem splitNl_append_newline (pre rest : List Char) (h : '\n' ∉ pre) :
    splitNl (pre ++ '\n' :: rest) = pre :: splitNl rest := by
  induction pre with
  | nil => simp [splitNl]
  | cons c p ih =>
    have hc : c ≠ '\n' := fun hh => h (by simp [hh])
    have hp : '\n' ∉ p := fun hh => h (by simp [hh])
    simp only [List.cons_append, splitNl, List.append_eq, if_neg hc, ih hp]

theorem joinNl_cons_cons (a b : List Char) (t : List (List Char)) :
    joinNl (a :: b :: t) = a ++ '\n' :: joinNl (b :: t) := by
  simp [joinNl]

theorem joinNl_splitNl (s : List Char) : joinNl (splitNl s) = s := by
  induction s with
  | nil => simp [splitNl, joinNl]
  | cons c rest ih =>
    simp only [splitNl]
    split
    · rename_i hc
      subst hc
      cases h : splitNl rest with
      | nil => exact absurd h (splitNl_ne_nil rest)
      | cons a t =>
        rw [h] at ih
        rw [joinNl_cons_cons]
        simp [ih]
    · cases h : splitNl rest with
      | nil => exact absurd h (splitNl_ne_nil rest)
      | cons a t =>
        rw [h] at ih
        have : joinNl ((c :: a) :: t) = c :: joinNl (a :: t) := by
          cases t with
          | nil => simp [joinNl]
          | cons b u => simp [joinNl_cons_cons]
        rw [this, ih]

/-! ### Line-level behaviour of the decoder -/

theorem decodeLine_id (st : DecState) (i : List Char) (h : hasNul i = false) :
    decodeLine st ("id: ".data ++ i) =
      { st with rid := some i, lastEventID := i } := by
  simp [decodeLine, splitAtColon, stripOneSpace, h]

theorem decodeLine_event (st : DecState) (n : List Char) :
    decodeLine st ("event: ".data ++ n) = { st with rname := some n } := by
  simp [decodeLine, splitAtColon, stripOneSpace]

theorem decodeLine_data (st : DecState) (seg : List Char) :
    decodeLine st ("data: ".data ++ seg) =
      { st with rdata := st.rdata ++ [seg] } := by
  simp [decodeLine, splitAtColon, stripOneSpace]

theorem foldl_decodeLine_data (segs : List (List Char)) (st : DecState) :
    List.foldl decodeLine st (segs.map (fun s => "data: ".data ++ s)) =
      { st with rdata := st.rdata ++ segs } := by
  induction segs generalizing st with
  | nil => simp
  | cons a t ih =>
    simp only [List.map_cons, List.foldl_cons]
    rw [decodeLine_data, ih]
    simp

theorem decodeLine_blank_emit (st : DecState)
    (h : st.rid.isSome || st.rname.isSome || !st.rdata.isEmpty) :
    decodeLine st [] =
      { rid := none, rname := none, rdata := [],
        lastEventID := st.lastEventID,
        events := st.events ++
          [{ id := st.rid.getD [], name := st.rname.getD [],
             payload := joinNl st.rdata, lastEventID := st.lastEventID }] } := by
  simp [decodeLine, h]

theorem decodeLine_blank_empty (st : DecState)
    (h : (st.rid.isSome || st.rname.isSome || !st.rdata.isEmpty) = false) :
    decodeLine st [] = st := by
  unfold decodeLine
  rw [if_pos rfl, if_neg (by simp [h])]

/-! ### Splitting an encoded event back into lines -/

theorem splitNl_flatten_lines (ls : List (List Char)) (rest : List Char)
    (h : ∀ l ∈ ls, '\n' ∉ l) :
    splitNl ((ls.map (fun l => l ++ ['\n'])).flatten ++ rest) =
      ls ++ splitNl rest := by
  induction ls with
  | nil => simp
  | cons a t ih =>
    have ha : '\n' ∉ a := h a (by simp)
    have ht : ∀ l ∈ t, '\n' ∉ l := fun l hl => h l (by simp [hl])
    simp only [List.map_cons, List.flatten_cons, List.append_assoc,
      List.singleton_append, List.cons_append]
    rw [splitNl_append_newline a _ ha]
    simp [ih ht]

theorem splitNl_eq_singleton (s : List Char) (h : '\n' ∉ s) :
    splitNl s = [s] := by
  induction s with
  | nil => rfl
  | cons c rest ih =>
    have hc : c ≠ '\n' := fun hh => h (by simp [hh])
    have hr : '\n' ∉ rest := fun hh => h (by simp [hh])
    simp only [splitNl, if_neg hc, ih hr]

theorem getLast?_beq_nl_false (x : List Char) (h : '\n' ∉ x) :
    (x.getLast? == some '\n') = false := by
  cases hx : x.getLast? with
  | none => rfl
  | some c =>
    have hmem : c ∈ x := by
      rcases List.mem_getLast?_eq_getLast (l := x) (x := c)
          (Option.mem_def.mpr hx) with ⟨hne, hc⟩
      rw [hc]
      exact List.getLast_mem hne
    have hcne : ¬c = '\n' := fun hcc => h (hcc ▸ hmem)
    exact beq_eq_false_iff_ne.mpr (by simp [hcne])

theorem writeTokens_lines (ss : List (List Char)) (hne : ss ≠ [])
    (h : ∀ s ∈ ss, '\n' ∉ s) :
    writeTokens true (withNl ss) =
      (ss.map (fun s => "data: ".data ++ s ++ ['\n'])).flatten := by
  induction ss with
  | nil => exact absurd rfl hne
  | cons x t ih =>
    cases t with
    | nil =>
      simp only [withNl, writeTokens, if_pos]
      rw [getLast?_beq_nl_false x (h x (by simp))]
      simp [writeTokens]
    | cons y rest =>
      simp only [withNl, writeTokens, if_pos]
      have hlast : ((x ++ ['\n']).getLast? == some '\n') = true := by
        rw [List.getLast?_concat]
        decide
      rw [hlast]
      rw [ih (by simp) (fun s hs => h s (by simp [hs]))]
      simp

theorem sseWrite_eq_lines (p : List Char) :
    sseWrite p =
      ((splitNl p).map (fun s => "data: ".data ++ s ++ ['\n'])).flatten := by
  unfold sseWrite
  exact writeTokens_lines (splitNl p) (splitNl_ne_nil p)
    (mem_splitNl_no_newline p)

/-- The lines an encoded event consists of: one id line per newline-segment
of a non-empty id, one event line per newline-segment of a non-empty name,
one data line per payload segment. -/
def encodeLines (id name payload : List Char) : List (List Char) :=
  (if id = [] then [] else (splitNl id).map (fun s => "id: ".data ++ s)) ++
  (if name = [] then []
   else (splitNl name).map (fun s => "event: ".data ++ s)) ++
  (splitNl payload).map (fun s => "data: ".data ++ s)

theorem Encode_eq_flatten (id name payload : List Char) :
    Encoder.Encode id name payload =
      ((encodeLines id name payload).map (fun l => l ++ ['\n'])).flatten ++
        ['\n'] := by
  by_cases hp : payload = [] <;> by_cases hi : id = [] <;>
    by_cases hn : name = [] <;>
      simp [Encoder.Encode, encodeField, encodeLines, sseWrite_eq_lines,
        hp, hi, hn, splitNl, Function.comp_def, List.append_assoc]

theorem splitNl_Encode (id name payload : List Char) :
    splitNl (Encoder.Encode id name payload) =
      encodeLines id name payload ++ [[], []] := by
  rw [Encode_eq_flatten]
  rw [splitNl_flatten_lines]
  · simp [splitNl]
  · intro l hl
    simp only [encodeLines, List.mem_append] at hl
    have hform : ∃ pre seg, ('\n' ∉ pre) ∧ ('\n' ∉ seg) ∧
        l = pre ++ seg := by
      rcases hl with (hl | hl) | hl
      · split at hl
        · simp at hl
        · rcases List.mem_map.mp hl with ⟨seg, hseg, rfl⟩
          exact ⟨"id: ".data, seg, by decide,
            mem_splitNl_no_newline id seg hseg, rfl⟩
      · split at hl
        · simp at hl
        · rcases List.mem_map.mp hl with ⟨seg, hseg, rfl⟩
          exact ⟨"event: ".data, seg, by decide,
            mem_splitNl_no_newline name seg hseg, rfl⟩
      · rcases List.mem_map.mp hl with ⟨seg, hseg, rfl⟩
        exact ⟨"data: ".data, seg, by decide,
          mem_splitNl_no_newline payload seg hseg, rfl⟩
    rcases hform with ⟨pre, seg, hpre, hseg, rfl⟩
    intro hc
    rcases List.mem_append.mp hc with hc | hc
    · exact hpre hc
    · exact hseg hc

theorem splitNl_append_nl_eq (s : List Char) :
    splitNl (s ++ ['\n']) = splitNl s ++ [[]] := by
  induction s with
  | nil => simp [splitNl]
  | cons c s ih =>
    simp only [List.cons_append, splitNl, List.append_eq]
    split
    · rw [ih]; simp
    · cases h : splitNl s with
      | nil => exact absurd h (splitNl_ne_nil s)
      | cons a t => rw [ih, h]; simp

theorem decode_tail (rid rname : Option (List Char)) (lastID : List Char)
    (evs : List DecEvent) (p : List Char) :
    (List.foldl decodeLine ⟨rid, rname, [], lastID, evs⟩
        ((splitNl p).map (fun seg => "data: ".data ++ seg) ++ [[], []])).events =
      evs ++ [{ id := rid.getD [], name := rname.getD [],
                payload := p, lastEventID := lastID }] := by
  rw [List.foldl_append, foldl_decodeLine_data]
  simp only [List.foldl_cons, List.foldl_nil]
  rw [decodeLine_blank_emit ⟨rid, rname, [] ++ splitNl p, lastID, evs⟩
    (by simp [List.isEmpty_iff, splitNl_ne_nil p])]
  rw [decodeLine_blank_empty _ (by simp)]
  simp [joinNl_splitNl]

/-- The claim C2 as amended: splitting the output of `Encoder.Encode` on
newlines yields, in order: one `id: s` line per newline-segment `s` of the
id iff the id is non-empty (a newline-free non-empty id yields the single
line `id: i`), likewise one `event: s` line per newline-segment of a
non-empty name, then one `data: s` line per segment of the payload split on
newlines (an empty payload yields exactly one empty `data: ` line, a
payload ending in a newline yields a final empty `data: ` line), then the
blank line from the final extra newline (and the empty remainder of the
split). -/
theorem claim_C2_encoder_output (i n p : List Char) :
    splitNl (Encoder.Encode i n p) =
      (if i = [] then [] else (splitNl i).map (fun s => "id: ".data ++ s)) ++
      (if n = [] then []
       else (splitNl n).map (fun s => "event: ".data ++ s)) ++
      (splitNl p).map (fun s => "data: ".data ++ s) ++ [[], []] ∧
    ('\n' ∉ i → i ≠ [] →
      (splitNl i).map (fun s => "id: ".data ++ s) = ["id: ".data ++ i]) ∧
    ('\n' ∉ n → n ≠ [] →
      (splitNl n).map (fun s => "event: ".data ++ s) =
        ["event: ".data ++ n]) ∧
    (p = [] → (splitNl p).map (fun s => "data: ".data ++ s) =
      ["data: ".data]) ∧
    (∀ q, p = q ++ ['\n'] →
      ((splitNl p).map (fun s => "data: ".data ++ s)).getLast? =
        some "data: ".data) := by
  refine ⟨?_, ?_, ?_, ?_, ?_⟩
  · rw [splitNl_Encode]
    simp [encodeLines, List.append_assoc]
  · intro hni _
    rw [splitNl_eq_singleton i hni]
    rfl
  · intro hnn _
    rw [splitNl_eq_singleton n hnn]
    rfl
  · intro hp
    subst hp
    simp [splitNl]
  · intro q hq
    subst hq
    rw [splitNl_append_nl_eq, List.map_append]
    simp

/-- Witness for `claim_C2_encoder_output` at a concrete event with a
payload ending in a newline. -/
theorem claim_C2_encoder_output_witness :
    splitNl (Encoder.Encode "1".data "Add".data "x\n".data) =
      (if "1".data = ([] : List Char) then []
       else (splitNl "1".data).map (fun s => "id: ".data ++ s)) ++
      (if "Add".data = ([] : List Char) then []
       else (splitNl "Add".data).map (fun s => "event: ".data ++ s)) ++
      (splitNl "x\n".data).map (fun s => "data: ".data ++ s) ++ [[], []] ∧
    ('\n' ∉ "1".data → "1".data ≠ [] →
      (splitNl "1".data).map (fun s => "id: ".data ++ s) =
        ["id: ".data ++ "1".data]) ∧
    ('\n' ∉ "Add".data → "Add".data ≠ [] →
      (splitNl "Add".data).map (fun s => "event: ".data ++ s) =
        ["event: ".data ++ "Add".data]) ∧
    ("x\n".data = [] → (splitNl "x\n".data).map
      (fun s => "data: ".data ++ s) = ["data: ".data]) ∧
    (∀ q, "x\n".data = q ++ ['\n'] →
      ((splitNl "x\n".data).map (fun s => "data: ".data ++ s)).getLast? =
        some "data: ".data) :=
  claim_C2_encoder_output "1".data "Add".data "x\n".data

/-- Counterexample to claim C2 as stated: for an id containing a newline
the encoder does not write the single line `id: i\n` - it writes one
prefixed line per newline-segment of the id - so the output bytes differ
from the claim's prescription. -/
theorem claim_C2_encoder_counterexample :
    Encoder.Encode "a\nb".data [] "x".data ≠
      "id: a\nb\n".data ++ "data: x\n".data ++ "\n".data := by
  decide

/-- The claim C1 as amended: encoding an event with `Encoder.Encode` and
decoding the produced bytes yields back exactly one event with the same
id, name and payload, provided the id and name contain no newline
character and the id contains no NUL byte; the payload is unrestricted.
(The decoder side is modelled from specification section 4.1, as the
decoder implementation file is not under src/.) -/
theorem claim_C1_roundtrip_amended (i n p : List Char)
    (hi : '\n' ∉ i) (hn : '\n' ∉ n) (hnul : hasNul i = false) :
    (decodeAll (Encoder.Encode i n p)).map
        (fun e => (e.id, e.name, e.payload)) =
      [(i, n, p)] := by
  unfold decodeAll
  rw [splitNl_Encode]
  unfold encodeLines
  rw [splitNl_eq_singleton i hi, splitNl_eq_singleton n hn]
  simp only [List.map_cons, List.map_nil]
  rw [List.append_assoc, List.append_assoc, List.foldl_append,
    List.foldl_append]
  have h0 : List.foldl decodeLine (initDecState [])
      (if i = [] then [] else ["id: ".data ++ i]) =
      { rid := if i = [] then none else some i, rname := none, rdata := [],
        lastEventID := if i = [] then [] else i, events := [] } := by
    by_cases hc : i = []
    · simp [hc, initDecState]
    · simp only [if_neg hc, List.foldl_cons, List.foldl_nil]
      rw [decodeLine_id _ _ hnul]
      simp [initDecState]
  rw [h0]
  have h1 : List.foldl decodeLine
      { rid := if i = [] then none else some i, rname := none, rdata := [],
        lastEventID := if i = [] then [] else i, events := [] }
      (if n = [] then [] else ["event: ".data ++ n]) =
      { rid := if i = [] then none else some i,
        rname := if n = [] then none else some n, rdata := [],
        lastEventID := if i = [] then [] else i, events := [] } := by
    by_cases hc : n = []
    · simp [hc]
    · simp only [if_neg hc, List.foldl_cons, List.foldl_nil]
      rw [decodeLine_event]
  rw [h1]
  rw [decode_tail]
  by_cases hci : i = [] <;> by_cases hcn : n = [] <;> simp [hci, hcn]

/-- Witness for `claim_C1_roundtrip_amended` at the concrete event of the
spec's round-trip scenario. -/
theorem claim_C1_roundtrip_witness :
    ('\n' ∉ "1".data ∧ '\n' ∉ "Add".data ∧ hasNul "1".data = false) ∧
      (decodeAll (Encoder.Encode "1".data "Add".data
          "This is a test".data)).map
          (fun e => (e.id, e.name, e.payload)) =
        [("1".data, "Add".data, "This is a test".data)] :=
  ⟨⟨by decide, by decide, by decide⟩,
    claim_C1_roundtrip_amended "1".data "Add".data "This is a test".data
      (by decide) (by decide) (by decide)⟩

/-- Counterexample to claim C1 as stated (one conjunct per restriction of
the amended claim): an id containing a newline is encoded as two `id: `
lines, so the decoder returns the last segment as the id; likewise a name
containing a newline; and an id containing a NUL byte is ignored by the
decoder.  In each case encoding then decoding does not return the original
id, name and payload. -/
theorem claim_C1_roundtrip_counterexample :
    (decodeAll (Encoder.Encode "a\nb".data [] "x".data)).map
        (fun e => (e.id, e.name, e.payload)) ≠
      [("a\nb".data, ([] : List Char), "x".data)] ∧
    (decodeAll (Encoder.Encode [] "a\nb".data "x".data)).map
        (fun e => (e.id, e.name, e.payload)) ≠
      [(([] : List Char), "a\nb".data, "x".data)] ∧
    (decodeAll (Encoder.Encode "a\x00b".data [] "x".data)).map
        (fun e => (e.id, e.name, e.payload)) ≠
      [("a\x00b".data, ([] : List Char), "x".data)] := by
  refine ⟨by decide, by decide, by decide⟩

/-! ## Server owner goroutine

Model of `Server.run` in `server.go`.  The owner goroutine multiplexes
registrations, unregistrations, subscriptions, unsubscriptions,
publications and shutdown; the order in which pending inputs are consumed
is the scheduler's choice, so a run of the owner is modelled as a fold over
a list of messages (one admissible interleaving).  Go channel runtime
semantics are explicit: a send on a closed channel and a close of a closed
channel are runtime panics (`panicked`); the owner blocking forever on the
internal `unsubs` channel (capacity 2, drained only by the owner itself) is
recorded as `stuck`.  A ghost `log` records the externally observable
actions of a run. -/

/-- Observable actions of the server owner. -/
inductive Action where
  | enqueued (sid : Nat)
  | evicted (sid : Nat)
  | closedQ (sid : Nat)
  | sentOnClosed (sid : Nat)
  | ack
  deriving DecidableEq, Repr

/-- A subscription as held in the owner's `subs` map: its channel name, the
contents of its buffered outbound queue `out`, whether `out` has been
closed, and whether its `closeOnce` guard has fired (`subscription.Close`).
Subscriptions are identified by `sid`; the advertised last-event-id plays
no role in the dispatch logic and is omitted. -/
structure Sub where
  sid : Nat
  channel : String
  queue : List Nat
  closed : Bool
  onceDone : Bool
  deriving DecidableEq, Repr

/-- The owner's state: `BufferSize`, the subscriber sets (a subscription is
in the set of its channel), the contents of the internal `unsubs` channel
(capacity 2), the registered channel names, and the runtime flags. -/
structure SrvState where
  bufferSize : Nat
  subs : List Sub
  unsubsQ : List Nat
  repos : List String
  quitDone : Bool
  panicked : Bool
  stuck : Bool
  log : List Action
  deriving DecidableEq, Repr

/-- Whether the owner goroutine can make no further progress (it panicked
or is blocked forever). -/
def SrvState.halted (st : SrvState) : Bool :=
  st.panicked || st.stuck

/-- Helper: rewrite the subscription with the given id. -/
def updateSub (subs : List Sub) (sid : Nat) (f : Sub → Sub) : List Sub :=
  subs.map (fun s => if s.sid == sid then f s else s)

/-- Helper: the subscription with the given id, if present. -/
def findSub (st : SrvState) (sid : Nat) : Option Sub :=
  st.subs.find? (fun s => s.sid == sid)

/-- Go's `close(ch)`: closing an already-closed channel is a runtime
panic. -/
def closeQueue (st : SrvState) (sid : Nat) : SrvState :=
  match findSub st sid with
  | none => st
  | some s =>
    if s.closed then
      { st with panicked := true, log := st.log ++ [Action.closedQ sid] }
    else
      { st with subs := updateSub st.subs sid (fun x => { x with closed := true }),
                log := st.log ++ [Action.closedQ sid] }

/-- Go's `subscription.Close` (server.go lines 285-289): a close of `out`
guarded by `closeOnce`. -/
def subClose (st : SrvState) (sid : Nat) : SrvState :=
  match findSub st sid with
  | none => st
  | some s =>
    if s.onceDone then st
    else
      closeQueue
        { st with subs := updateSub st.subs sid (fun x => { x with onceDone := true }) }
        sid

/-- One step of the owner's publish loop body (server.go lines 234-241):
`select { case s.out <- pub.eventOrComment: default: ... }`.  A send on a
closed channel is always ready in a Go select and panics; otherwise the
send succeeds iff the buffered queue has room; otherwise the default branch
evicts the subscription: `srv.unsubs <- s` (a plain send on the capacity-2
`unsubs` channel, which only the owner itself drains, so a full channel
blocks the owner forever) followed by `close(s.out)`. -/
def trySend (st : SrvState) (sid : Nat) (item : Nat) : SrvState :=
  if st.halted then st else
  match findSub st sid with
  | none => st
  | some s =>
    if s.closed then
      { st with panicked := true, log := st.log ++ [Action.sentOnClosed sid] }
    else if s.queue.length < st.bufferSize then
      { st with subs := updateSub st.subs sid (fun x => { x with queue := x.queue ++ [item] }),
                log := st.log ++ [Action.enqueued sid] }
    else if st.unsubsQ.length < 2 then
      closeQueue
        { st with unsubsQ := st.unsubsQ ++ [sid], log := st.log ++ [Action.evicted sid] }
        sid
    else
      { st with stuck := true }

/-- The subscriptions of a channel, as the owner iterates them
(`for s := range subs[c]`). -/
def subsOf (st : SrvState) (c : String) : List Nat :=
  (st.subs.filter (fun s => s.channel == c)).map Sub.sid

/-- The per-channel dispatch loop of a publication. -/
def sendAll (st : SrvState) (sids : List Nat) (item : Nat) : SrvState :=
  sids.foldl (fun a sid => trySend a sid item) st

/-- The full dispatch of one publication (server.go lines 233-242): for
each named channel, for each subscription in that channel's set. -/
def dispatchPub (st : SrvState) (channels : List String) (item : Nat) : SrvState :=
  channels.foldl (fun acc c => sendAll acc (subsOf acc c) item) st

/-- Messages serviced by the owner goroutine.  A `drainUnsub` message is the
owner consuming one pending entry of its internal `unsubs` channel. -/
inductive Msg where
  | register (channel : String)
  | unregister (channel : String) (forceDisconnect : Bool)
  | subscribe (sid : Nat) (channel : String)
  | drainUnsub
  | publish (channels : List String) (item : Nat) (hasAck : Bool)
  | quit
  deriving DecidableEq, Repr

/-- One iteration of `Server.run`'s select loop (server.go lines 214-271),
servicing a single owner input.  After a quit the loop has returned; after
a panic or a permanent block nothing further happens. -/
def processMsg (st : SrvState) (m : Msg) : SrvState :=
  if st.halted || st.quitDone then st else
  match m with
  | .register c =>
      { st with repos := if c ∈ st.repos then st.repos else st.repos ++ [c] }
  | .unregister c force =>
      let st1 :=
        if force then
          ((st.subs.filter (fun s => s.channel == c)).map Sub.sid).foldl subClose st
        else st
      { st1 with repos := st1.repos.filter (fun r => r ≠ c),
                 subs := st1.subs.filter (fun s => s.channel ≠ c) }
  | .subscribe sid c =>
      { st with subs := st.subs ++ [⟨sid, c, [], false, false⟩] }
  | .drainUnsub =>
      match st.unsubsQ with
      | [] => st
      | sid :: rest =>
          { st with unsubsQ := rest, subs := st.subs.filter (fun s => s.sid ≠ sid) }
  | .publish chs item hasAck =>
      let st1 := dispatchPub st chs item
      if hasAck && !st1.halted then { st1 with log := st1.log ++ [Action.ack] }
      else st1
  | .quit =>
      let st1 := (st.subs.map Sub.sid).foldl closeQueue st
      { st1 with quitDone := true }

/-- A run of the owner over a list of inputs (one admissible scheduling of
the owner's select loop). -/
def runMsgs (st : SrvState) (msgs : List Msg) : SrvState :=
  msgs.foldl processMsg st

/-- The owner state right after `NewServer` (empty maps, empty queues), with
a given `BufferSize` (default 128, configurable before serving). -/
def initSrv (bufferSize : Nat) : SrvState :=
  { bufferSize := bufferSize, subs := [], unsubsQ := [], repos := [],
    quitDone := false, panicked := false, stuck := false, log := [] }

/-! ### Invariants of the dispatch loop -/

/-- The skeleton of the subscriber sets: which subscription ids exist and
on which channel.  The dispatch loop never changes it. -/
def skel (st : SrvState) : List (Nat × String) :=
  st.subs.map (fun s => (s.sid, s.channel))

theorem skel_updateSub (st : SrvState) (sid : Nat) (f : Sub → Sub)
    (hf : ∀ s, (f s).sid = s.sid ∧ (f s).channel = s.channel)
    (rest : SrvState)
    (hrest : rest.subs = updateSub st.subs sid f) :
    skel rest = skel st := by
  unfold skel
  rw [hrest]
  unfold updateSub
  rw [List.map_map]
  apply List.map_congr_left
  intro s _
  by_cases h : (s.sid == sid) = true <;> simp [h, Function.comp, (hf s).1, (hf s).2]

theorem subsOf_skel (st : SrvState) (c : String) :
    subsOf st c =
      (skel st).filterMap (fun q => if q.2 == c then some q.1 else none) := by
  unfold subsOf skel
  induction st.subs with
  | nil => simp
  | cons s t ih =>
    by_cases h : s.channel = c <;>
      simp [List.filter_cons, List.filterMap_cons, h, ih]

theorem sid_mem_skel (st : SrvState) (t : Nat) :
    t ∈ st.subs.map Sub.sid ↔ t ∈ (skel st).map Prod.fst := by
  unfold skel
  rw [List.map_map]
  rfl

theorem mem_subsOf_self (st : SrvState) (s : Sub) (hs : s ∈ st.subs) :
    s.sid ∈ subsOf st s.channel := by
  unfold subsOf
  exact List.mem_map_of_mem _ (List.mem_filter.mpr ⟨hs, by simp⟩)

theorem subsOf_subset_sids (st : SrvState) (c : String) (t : Nat)
    (h : t ∈ subsOf st c) : t ∈ st.subs.map Sub.sid := by
  unfold subsOf at h
  rcases List.mem_map.mp h with ⟨s, hs, rfl⟩
  exact List.mem_map_of_mem _ (List.mem_filter.mp hs).1

theorem trySend_sticky (st : SrvState) (t item : Nat)
    (h : st.halted = true) : trySend st t item = st := by
  unfold trySend
  rw [if_pos h]

theorem sendAll_sticky (st : SrvState) (sids : List Nat) (item : Nat)
    (h : st.halted = true) : sendAll st sids item = st := by
  induction sids with
  | nil => rfl
  | cons a rest ih =>
    unfold sendAll at ih ⊢
    rw [List.foldl_cons, trySend_sticky st a item h, ih]

theorem dispatchPub_sticky (st : SrvState) (chs : List String) (item : Nat)
    (h : st.halted = true) : dispatchPub st chs item = st := by
  induction chs with
  | nil => rfl
  | cons c rest ih =>
    unfold dispatchPub at ih ⊢
    rw [List.foldl_cons, sendAll_sticky st _ item h, ih]

theorem closeQueue_open (st : SrvState) (t : Nat) (s : Sub)
    (hfind : findSub st t = some s) (hcl : s.closed = false) :
    closeQueue st t =
      { st with subs := updateSub st.subs t (fun x => { x with closed := true }),
                log := st.log ++ [Action.closedQ t] } := by
  unfold closeQueue
  rw [hfind]
  simp [hcl]

theorem trySend_spec (st : SrvState) (t item : Nat) :
    skel (trySend st t item) = skel st ∧
    (trySend st t item).bufferSize = st.bufferSize ∧
    ∃ l, (trySend st t item).log = st.log ++ l ∧ Action.ack ∉ l ∧
      ((trySend st t item).halted = false → t ∈ st.subs.map Sub.sid →
        Action.enqueued t ∈ l ∨ Action.evicted t ∈ l) := by
  unfold trySend
  split
  case isTrue h =>
    refine ⟨rfl, rfl, [], by simp, by simp, fun hh _ => ?_⟩
    rw [h] at hh
    exact absurd hh (by simp)
  case isFalse h =>
    split
    case h_1 hfind =>
      refine ⟨rfl, rfl, [], by simp, by simp, fun hh hmem => ?_⟩
      exfalso
      rcases List.mem_map.mp hmem with ⟨s, hs, rfl⟩
      exact absurd (beq_self_eq_true s.sid)
        (by simpa using List.find?_eq_none.mp hfind s hs)
    case h_2 s hfind =>
      split
      case isTrue hcl =>
        refine ⟨rfl, rfl, [Action.sentOnClosed t], rfl, by simp, fun hh _ => ?_⟩
        exact absurd hh (by simp [SrvState.halted])
      case isFalse hcl =>
        split
        case isTrue hroom =>
          refine ⟨?_, rfl, [Action.enqueued t], rfl, by simp,
            fun _ _ => Or.inl (by simp)⟩
          exact skel_updateSub st t
            (fun x => { x with queue := x.queue ++ [item] })
            (fun x => ⟨rfl, rfl⟩) _ rfl
        case isFalse hroom =>
          split
          case isTrue hq =>
            have h1 : findSub
                { st with unsubsQ := st.unsubsQ ++ [t],
                          log := st.log ++ [Action.evicted t] } t = some s := hfind
            rw [closeQueue_open _ t s h1 (by simp at hcl; exact hcl)]
            refine ⟨?_, rfl, [Action.evicted t, Action.closedQ t], by simp, by simp,
              fun _ _ => Or.inr (by simp)⟩
            exact skel_updateSub st t
              (fun x => { x with closed := true })
              (fun x => ⟨rfl, rfl⟩) _ rfl
          case isFalse hq =>
            refine ⟨rfl, rfl, [], by simp, by simp, fun hh _ => ?_⟩
            exact absurd hh (by simp [SrvState.halted])

theorem sendAll_spec (sids : List Nat) (st : SrvState) (item : Nat) :
    skel (sendAll st sids item) = skel st ∧
    ∃ l, (sendAll st sids item).log = st.log ++ l ∧ Action.ack ∉ l ∧
      ((sendAll st sids item).halted = false →
        ∀ t ∈ sids, t ∈ st.subs.map Sub.sid →
          Action.enqueued t ∈ l ∨ Action.evicted t ∈ l) := by
  induction sids generalizing st with
  | nil => exact ⟨rfl, [], by simp [sendAll], by simp, by simp⟩
  | cons a rest ih =>
    have hstep : sendAll st (a :: rest) item =
        sendAll (trySend st a item) rest item := by
      unfold sendAll
      rw [List.foldl_cons]
    obtain ⟨hskel1, hbuf1, l1, hl1, hack1, hfn1⟩ := trySend_spec st a item
    obtain ⟨hskel2, l2, hl2, hack2, hfn2⟩ := ih (trySend st a item)
    rw [hstep]
    refine ⟨hskel2.trans hskel1, l1 ++ l2, ?_, ?_, ?_⟩
    · rw [hl2, hl1, List.append_assoc]
    · simp [hack1, hack2]
    · intro hh t ht hmem
      have hh1 : (trySend st a item).halted = false := by
        by_contra hcon
        have : (trySend st a item).halted = true := by
          cases hca : (trySend st a item).halted
          · exact absurd hca hcon
          · rfl
        rw [sendAll_sticky _ _ _ this] at hh
        rw [this] at hh
        exact absurd hh (by simp)
      rcases List.mem_cons.mp ht with rfl | ht'
      · rcases hfn1 hh1 hmem with hc | hc
        · exact Or.inl (List.mem_append_left _ hc)
        · exact Or.inr (List.mem_append_left _ hc)
      · have hmem' : t ∈ (trySend st a item).subs.map Sub.sid := by
          rw [sid_mem_skel] at hmem ⊢
          rw [hskel1]
          exact hmem
        rcases hfn2 hh t ht' hmem' with hc | hc
        · exact Or.inl (List.mem_append_right _ hc)
        · exact Or.inr (List.mem_append_right _ hc)

theorem dispatchPub_spec (chs : List String) (st : SrvState) (item : Nat) :
    skel (dispatchPub st chs item) = skel st ∧
    ∃ l, (dispatchPub st chs item).log = st.log ++ l ∧ Action.ack ∉ l ∧
      ((dispatchPub st chs item).halted = false →
        ∀ c ∈ chs, ∀ t ∈ subsOf st c,
          Action.enqueued t ∈ l ∨ Action.evicted t ∈ l) := by
  induction chs generalizing st with
  | nil => exact ⟨rfl, [], by simp [dispatchPub], by simp, by simp⟩
  | cons c rest ih =>
    have hstep : dispatchPub st (c :: rest) item =
        dispatchPub (sendAll st (subsOf st c) item) rest item := by
      unfold dispatchPub
      rw [List.foldl_cons]
    obtain ⟨hskel1, l1, hl1, hack1, hfn1⟩ := sendAll_spec (subsOf st c) st item
    obtain ⟨hskel2, l2, hl2, hack2, hfn2⟩ := ih (sendAll st (subsOf st c) item)
    rw [hstep]
    refine ⟨hskel2.trans hskel1, l1 ++ l2, ?_, ?_, ?_⟩
    · rw [hl2, hl1, List.append_assoc]
    · simp [hack1, hack2]
    · intro hh c' hc' t ht
      have hh1 : (sendAll st (subsOf st c) item).halted = false := by
        by_contra hcon
        have : (sendAll st (subsOf st c) item).halted = true := by
          cases hca : (sendAll st (subsOf st c) item).halted
          · exact absurd hca hcon
          · rfl
        rw [dispatchPub_sticky _ _ _ this] at hh
        rw [this] at hh
        exact absurd hh (by simp)
      rcases List.mem_cons.mp hc' with rfl | hc''
      · rcases hfn1 hh1 t ht (subsOf_subset_sids st c' t ht) with hc | hc
        · exact Or.inl (List.mem_append_left _ hc)
        · exact Or.inr (List.mem_append_left _ hc)
      · have ht' : t ∈ subsOf (sendAll st (subsOf st c) item) c' := by
          rw [subsOf_skel, hskel1, ← subsOf_skel]
          exact ht
        rcases hfn2 hh c' hc'' t ht' with hc | hc
        · exact Or.inl (List.mem_append_right _ hc)
        · exact Or.inr (List.mem_append_right _ hc)

/-- The claim C4: the acknowledgment of `PublishWithAcknowledgment` is
signalled only after the owner has completed the dispatch: whenever the ack
appears among the actions of a publish, it is the very last of them, and
every subscription of every target channel has an enqueue or an eviction
action strictly before it. -/
theorem processMsg_publish (st : SrvState) (chs : List String) (item : Nat)
    (hasAck : Bool) :
    processMsg st (Msg.publish chs item hasAck) =
      if st.halted || st.quitDone then st
      else if hasAck && !(dispatchPub st chs item).halted then
        { dispatchPub st chs item with
          log := (dispatchPub st chs item).log ++ [Action.ack] }
      else dispatchPub st chs item := rfl

theorem claim_C4_ack_after_dispatch (st : SrvState) (chs : List String)
    (item : Nat) (l : List Action)
    (hl : (processMsg st (Msg.publish chs item true)).log = st.log ++ l)
    (hack : Action.ack ∈ l) :
    l.getLast? = some Action.ack ∧
    ∀ s ∈ st.subs, s.channel ∈ chs →
      Action.enqueued s.sid ∈ l.dropLast ∨ Action.evicted s.sid ∈ l.dropLast := by
  rw [processMsg_publish] at hl
  obtain ⟨hskel, d, hd, hackd, hfn⟩ := dispatchPub_spec chs st item
  split at hl
  · have hl2 : st.log ++ ([] : List Action) = st.log ++ l := by
      rw [List.append_nil]
      exact hl
    have hnil : ([] : List Action) = l := List.append_cancel_left hl2
    rw [← hnil] at hack
    exact absurd hack (by simp)
  · by_cases hhalt : (dispatchPub st chs item).halted = true
    · rw [if_neg (by simp [hhalt])] at hl
      rw [hd, List.append_cancel_left_eq] at hl
      rw [← hl] at hack
      exact absurd hack hackd
    · have hhf : (dispatchPub st chs item).halted = false := by
        cases hca : (dispatchPub st chs item).halted
        · rfl
        · exact absurd hca hhalt
      rw [if_pos (by simp [hhf])] at hl
      simp only at hl
      rw [hd, List.append_assoc, List.append_cancel_left_eq] at hl
      rw [← hl]
      constructor
      · exact List.getLast?_concat d
      · intro s hs hcs
        rw [List.dropLast_concat]
        exact hfn hhf s.channel hcs s.sid (mem_subsOf_self st s hs)

/-- Witness for `claim_C4_ack_after_dispatch` at a concrete publish. -/
theorem claim_C4_ack_after_dispatch_witness :
    ((processMsg { initSrv 2 with subs := [⟨1, "c", [], false, false⟩] }
        (Msg.publish ["c"] 7 true)).log =
      ({ initSrv 2 with subs := [⟨1, "c", [], false, false⟩] } : SrvState).log ++
        [Action.enqueued 1, Action.ack] ∧
      Action.ack ∈ [Action.enqueued 1, Action.ack]) ∧
    ([Action.enqueued 1, Action.ack].getLast? = some Action.ack ∧
      ∀ s ∈ ({ initSrv 2 with
          subs := [⟨1, "c", [], false, false⟩] } : SrvState).subs,
        s.channel ∈ ["c"] →
          Action.enqueued s.sid ∈ [Action.enqueued 1, Action.ack].dropLast ∨
          Action.evicted s.sid ∈ [Action.enqueued 1, Action.ack].dropLast) :=
  ⟨⟨by decide, by decide⟩,
    claim_C4_ack_after_dispatch _ ["c"] 7 [Action.enqueued 1, Action.ack]
      (by decide) (by decide)⟩

/-- The claim C3 is violated by the code: with three full subscriptions on
one channel (capacity 1 queues, filled by a first publish), a second
publish evicts the first two but then blocks forever sending to the
internal capacity-2 `unsubs` channel, which only the owner itself drains;
the third full subscription is neither enqueued to nor evicted (its queue
stays open and no unsubscribe for it is pending). -/
theorem claim_C3_third_eviction_blocks :
    (runMsgs (initSrv 1)
      [Msg.subscribe 1 "c", Msg.subscribe 2 "c", Msg.subscribe 3 "c",
       Msg.publish ["c"] 10 false, Msg.publish ["c"] 11 false]).stuck = true ∧
    (findSub (runMsgs (initSrv 1)
      [Msg.subscribe 1 "c", Msg.subscribe 2 "c", Msg.subscribe 3 "c",
       Msg.publish ["c"] 10 false, Msg.publish ["c"] 11 false]) 3).map
        Sub.closed = some false ∧
    (3 : Nat) ∉ (runMsgs (initSrv 1)
      [Msg.subscribe 1 "c", Msg.subscribe 2 "c", Msg.subscribe 3 "c",
       Msg.publish ["c"] 10 false, Msg.publish ["c"] 11 false]).unsubsQ ∧
    Action.evicted 3 ∉ (runMsgs (initSrv 1)
      [Msg.subscribe 1 "c", Msg.subscribe 2 "c", Msg.subscribe 3 "c",
       Msg.publish ["c"] 10 false, Msg.publish ["c"] 11 false]).log ∧
    (runMsgs (initSrv 1)
      [Msg.subscribe 1 "c", Msg.subscribe 2 "c", Msg.subscribe 3 "c",
       Msg.publish ["c"] 10 false, Msg.publish ["c"] 11 false]).log.count
        (Action.enqueued 3) = 1 ∧
    (findSub (runMsgs (initSrv 1)
      [Msg.subscribe 1 "c", Msg.subscribe 2 "c", Msg.subscribe 3 "c",
       Msg.publish ["c"] 10 false, Msg.publish ["c"] 11 false]) 3).map
        Sub.queue = some [10] := by
  decide

/-- The claim C9 is violated by the code: a slow-consumer eviction closes
the queue with a raw `close(s.out)` (bypassing the `closeOnce` guard) while
the subscription stays in the channel's set until the pending unsubscribe
is drained; a shutdown processed before that drain closes the same queue
again — two `close` operations on one queue, a Go runtime panic. -/
theorem claim_C9_double_close_on_shutdown :
    (runMsgs (initSrv 1)
      [Msg.subscribe 1 "c", Msg.publish ["c"] 10 false,
       Msg.publish ["c"] 11 false, Msg.quit]).panicked = true ∧
    (runMsgs (initSrv 1)
      [Msg.subscribe 1 "c", Msg.publish ["c"] 10 false,
       Msg.publish ["c"] 11 false, Msg.quit]).log.count
        (Action.closedQ 1) = 2 := by
  decide

/-- The claim C10 is violated by the code: after an eviction has closed a
subscription's queue, the subscription remains in the channel's set until
the pending unsubscribe is drained, and a publish dispatched in between
reaches the select's send case on the closed queue — a send on a closed
channel, a Go runtime panic. -/
theorem claim_C10_send_on_closed_queue :
    Action.sentOnClosed 1 ∈ (runMsgs (initSrv 1)
      [Msg.subscribe 1 "c", Msg.publish ["c"] 10 false,
       Msg.publish ["c"] 11 false, Msg.publish ["c"] 12 false]).log ∧
    (runMsgs (initSrv 1)
      [Msg.subscribe 1 "c", Msg.publish ["c"] 10 false,
       Msg.publish ["c"] 11 false,
       Msg.publish ["c"] 12 false]).panicked = true := by
  decide

/-! ## Stream client

Model of the stream lifecycle in `stream.go`: the `closer` and `restarter`
channels, the worker goroutine `Stream.stream`, and the `Stream.connect`
method.  The HTTP transaction itself (`stream.c.Do`) is an external
collaborator; its outcome is a parameter of the model. -/

/-- The lifecycle state of a `Stream`: whether the `closer` channel has
been closed and whether the `closeOnce` guard has fired; the number of
pending signals in the capacity-1 `restarter` channel; the running
last-event-id; whether the public `Errors` channel is in use (no error
handler configured); whether the worker has exited; and ghost counters for
how many times the public channels were closed and how many reconnect
timers were scheduled. -/
structure StreamState where
  closerClosed : Bool
  closeOnceDone : Bool
  restartPending : Nat
  lastEventID : String
  hasErrorsChannel : Bool
  workerExited : Bool
  eventsClosedCount : Nat
  errorsClosedCount : Nat
  retriesScheduled : Nat
  deriving DecidableEq, Repr

/-- Model of `Stream.Close` (stream.go lines 225-229): close the `closer`
channel, guarded by `closeOnce`. -/
def Stream.close (s : StreamState) : StreamState :=
  if s.closeOnceDone then s
  else { s with closeOnceDone := true, closerClosed := true }

/-- Model of `Stream.Restart` (stream.go lines 213-222): a non-blocking
send on the capacity-1 `restarter` channel; if a restart signal is already
pending the send takes the default branch and the call is a no-op. -/
def Stream.restart (s : StreamState) : StreamState :=
  if s.restartPending < 1 then { s with restartPending := s.restartPending + 1 }
  else s

/-- The events the worker's select loop can wake up on (stream.go lines
335-372): a pending restart signal, a decoder error (with the error
handler's stop decision), a decoded event, the closed `closer` channel,
and the reconnect timer. -/
inductive WorkerEv where
  | restarterFired
  | decodeErr (stop : Bool)
  | eventArrived (id : String)
  | closerFired
  | retryFired (connectOk : Bool)
  deriving DecidableEq, Repr

/-- The worker's exit path (stream.go lines 375-378): close the `Errors`
channel if it is in use, then close the `Events` channel. -/
def workerExit (s : StreamState) : StreamState :=
  { s with workerExited := true,
           eventsClosedCount := s.eventsClosedCount + 1,
           errorsClosedCount :=
             s.errorsClosedCount + (if s.hasErrorsChannel then 1 else 0) }

/-- One wake-up of the worker's select loop (stream.go lines 335-372).  A
receive on `restarter` is only ready when a signal is pending and consumes
it, scheduling a retry; a decoder error schedules a retry unless the
handler says stop, in which case the worker calls `stream.Close` and
breaks out, closing the public channels; a received event updates the
running last-event-id; a receive on `closer` is only ready once the
channel is closed and breaks out of the loop. -/
def workerStep (s : StreamState) (e : WorkerEv) : StreamState :=
  if s.workerExited then s else
  match e with
  | .restarterFired =>
      if 1 ≤ s.restartPending then
        { s with restartPending := s.restartPending - 1,
                 retriesScheduled := s.retriesScheduled + 1 }
      else s
  | .decodeErr stop =>
      if stop then workerExit (Stream.close s)
      else { s with retriesScheduled := s.retriesScheduled + 1 }
  | .eventArrived id => { s with lastEventID := id }
  | .closerFired => if s.closerClosed then workerExit s else s
  | .retryFired _ => s

/-- A run of the worker over the wake-ups it observes. -/
def workerRun (s : StreamState) (trace : List WorkerEv) : StreamState :=
  trace.foldl workerStep s

/-! ### Lemmas for the stream lifecycle -/

/-- The invariant threaded through a worker run started after `Close`. -/
def StreamInv (hec : Bool) (s : StreamState) : Prop :=
  s.hasErrorsChannel = hec ∧ s.closerClosed = true ∧
  (s.workerExited = false → s.eventsClosedCount = 0 ∧ s.errorsClosedCount = 0) ∧
  (s.workerExited = true → s.eventsClosedCount = 1 ∧
    s.errorsClosedCount = (if hec then 1 else 0))

theorem workerStep_exited (s : StreamState) (e : WorkerEv)
    (h : s.workerExited = true) : workerStep s e = s := by
  unfold workerStep
  rw [if_pos h]

theorem workerRun_exited (s : StreamState) (trace : List WorkerEv)
    (h : s.workerExited = true) : workerRun s trace = s := by
  induction trace with
  | nil => rfl
  | cons e rest ih =>
    unfold workerRun at ih ⊢
    rw [List.foldl_cons, workerStep_exited s e h, ih]

theorem workerStep_inv (hec : Bool) (s : StreamState) (e : WorkerEv)
    (h : StreamInv hec s) : StreamInv hec (workerStep s e) := by
  obtain ⟨h1, h2, h3, h4⟩ := h
  by_cases hex : s.workerExited = true
  · rw [workerStep_exited s e hex]
    exact ⟨h1, h2, h3, h4⟩
  · have hex' : s.workerExited = false := by
      cases hca : s.workerExited
      · rfl
      · exact absurd hca hex
    obtain ⟨he0, hr0⟩ := h3 hex'
    unfold workerStep
    rw [if_neg hex]
    cases e with
    | restarterFired =>
      by_cases hp : 1 ≤ s.restartPending <;>
        simp only [if_pos, if_neg, hp] <;>
        exact ⟨h1, h2, fun _ => ⟨he0, hr0⟩, fun hc => absurd hc (by simp [hex'])⟩
    | decodeErr stop =>
      cases stop with
      | false =>
        exact ⟨h1, h2, fun _ => ⟨he0, hr0⟩, fun hc => absurd hc (by simp [hex'])⟩
      | true =>
        simp only [if_pos]
        unfold workerExit Stream.close
        by_cases hco : s.closeOnceDone = true <;>
          simp only [if_pos, if_neg, hco] <;>
          exact ⟨h1, by simp [h2], fun hc => absurd hc (by simp), fun _ =>
            ⟨by simp [he0], by simp [hr0, h1]⟩⟩
    | eventArrived id =>
      exact ⟨h1, h2, fun _ => ⟨he0, hr0⟩, fun hc => absurd hc (by simp [hex'])⟩
    | closerFired =>
      rw [h2]
      simp only [if_pos]
      unfold workerExit
      exact ⟨h1, h2, fun hc => absurd hc (by simp), fun _ =>
        ⟨by simp [he0], by simp [hr0, h1]⟩⟩
    | retryFired ok =>
      exact ⟨h1, h2, fun _ => ⟨he0, hr0⟩, fun hc => absurd hc (by simp [hex'])⟩

theorem workerRun_inv (hec : Bool) (s : StreamState) (trace : List WorkerEv)
    (h : StreamInv hec s) : StreamInv hec (workerRun s trace) := by
  induction trace generalizing s with
  | nil => exact h
  | cons e rest ih =>
    unfold workerRun at ih ⊢
    rw [List.foldl_cons]
    exact ih _ (workerStep_inv hec s e h)

theorem workerRun_closer_exits (hec : Bool) (s : StreamState)
    (trace : List WorkerEv) (h : StreamInv hec s)
    (hmem : WorkerEv.closerFired ∈ trace) :
    (workerRun s trace).workerExited = true := by
  induction trace generalizing s with
  | nil => exact absurd hmem (by simp)
  | cons e rest ih =>
    unfold workerRun at ih ⊢
    rw [List.foldl_cons]
    rcases List.mem_cons.mp hmem with rfl | hmem'
    · have hex : (workerStep s WorkerEv.closerFired).workerExited = true := by
        by_cases hex0 : s.workerExited = true
        · rw [workerStep_exited s _ hex0]
          exact hex0
        · unfold workerStep
          rw [if_neg hex0, h.2.1]
          simp [workerExit]
      have := workerRun_exited (workerStep s WorkerEv.closerFired) rest hex
      unfold workerRun at this
      rw [this]
      exact hex
    · exact ih _ (workerStep_inv hec s _ h) hmem'

/-- The claim C5: `Stream.Close` is idempotent - any number of calls, in
any position relative to the worker's activity, closes the `closer`
channel once, and the public `Events` channel (and the `Errors` channel
when it is in use) is closed exactly once, by the worker on exit: at most
once over any run, and exactly once when the worker observes the close
signal. -/
theorem claim_C5_close_idempotent (s : StreamState) (k : Nat)
    (trace : List WorkerEv) (hk : 1 ≤ k)
    (hco : s.closeOnceDone = false)
    (hw : s.workerExited = false) (he : s.eventsClosedCount = 0)
    (hr : s.errorsClosedCount = 0) :
    Stream.close (Stream.close s) = Stream.close s ∧
    Stream.close^[k] s = Stream.close s ∧
    (Stream.close^[k] s).closerClosed = true ∧
    (workerRun (Stream.close^[k] s) trace).eventsClosedCount ≤ 1 ∧
    (workerRun (Stream.close^[k] s) trace).errorsClosedCount ≤ 1 ∧
    (WorkerEv.closerFired ∈ trace →
      (workerRun (Stream.close^[k] s) trace).eventsClosedCount = 1 ∧
      (workerRun (Stream.close^[k] s) trace).errorsClosedCount =
        (if s.hasErrorsChannel then 1 else 0)) := by
  have hidem : Stream.close (Stream.close s) = Stream.close s := by
    unfold Stream.close
    by_cases hc : s.closeOnceDone = true <;> simp [hc]
  have hiter : Stream.close^[k] s = Stream.close s := by
    obtain ⟨m, rfl⟩ := Nat.exists_eq_add_of_le hk
    rw [Nat.add_comm, Function.iterate_add_apply, Function.iterate_one]
    exact Function.iterate_fixed hidem m
  have hclosed : (Stream.close s).closerClosed = true := by
    unfold Stream.close
    simp [hco]
  have hinv : StreamInv s.hasErrorsChannel (Stream.close s) := by
    unfold Stream.close StreamInv
    simp [hco, hw, he, hr]
  have hinv' := workerRun_inv s.hasErrorsChannel _ trace hinv
  obtain ⟨hi1, hi2, hi3, hi4⟩ := hinv'
  refine ⟨hidem, hiter, by rw [hiter]; exact hclosed, ?_, ?_, ?_⟩
  · rw [hiter]
    by_cases hx : (workerRun (Stream.close s) trace).workerExited = true
    · rw [(hi4 hx).1]
    · have : (workerRun (Stream.close s) trace).workerExited = false := by
        cases hca : (workerRun (Stream.close s) trace).workerExited
        · rfl
        · exact absurd hca hx
      rw [(hi3 this).1]
      exact Nat.zero_le 1
  · rw [hiter]
    by_cases hx : (workerRun (Stream.close s) trace).workerExited = true
    · rw [(hi4 hx).2]
      by_cases hch : s.hasErrorsChannel = true <;> simp [hch]
    · have : (workerRun (Stream.close s) trace).workerExited = false := by
        cases hca : (workerRun (Stream.close s) trace).workerExited
        · rfl
        · exact absurd hca hx
      rw [(hi3 this).2]
      exact Nat.zero_le 1
  · intro hmem
    rw [hiter]
    have hex := workerRun_closer_exits s.hasErrorsChannel _ trace hinv hmem
    exact hi4 hex

/-- Witness for `claim_C5_close_idempotent` at a concrete stream state,
closing three times and running the worker over a trace containing the
close signal. -/
theorem claim_C5_close_idempotent_witness :
    (1 ≤ 3 ∧
      (⟨false, false, 0, "", true, false, 0, 0, 0⟩ :
        StreamState).closeOnceDone = false ∧
      (⟨false, false, 0, "", true, false, 0, 0, 0⟩ :
        StreamState).workerExited = false ∧
      (⟨false, false, 0, "", true, false, 0, 0, 0⟩ :
        StreamState).eventsClosedCount = 0 ∧
      (⟨false, false, 0, "", true, false, 0, 0, 0⟩ :
        StreamState).errorsClosedCount = 0) ∧
    (Stream.close (Stream.close ⟨false, false, 0, "", true, false, 0, 0, 0⟩) =
        Stream.close ⟨false, false, 0, "", true, false, 0, 0, 0⟩ ∧
      Stream.close^[3] (⟨false, false, 0, "", true, false, 0, 0, 0⟩ :
          StreamState) =
        Stream.close ⟨false, false, 0, "", true, false, 0, 0, 0⟩ ∧
      (Stream.close^[3] (⟨false, false, 0, "", true, false, 0, 0, 0⟩ :
          StreamState)).closerClosed = true ∧
      (workerRun (Stream.close^[3] (⟨false, false, 0, "", true, false, 0, 0, 0⟩ :
          StreamState))
          [WorkerEv.eventArrived "x", WorkerEv.closerFired,
            WorkerEv.closerFired]).eventsClosedCount ≤ 1 ∧
      (workerRun (Stream.close^[3] (⟨false, false, 0, "", true, false, 0, 0, 0⟩ :
          StreamState))
          [WorkerEv.eventArrived "x", WorkerEv.closerFired,
            WorkerEv.closerFired]).errorsClosedCount ≤ 1 ∧
      (WorkerEv.closerFired ∈
          [WorkerEv.eventArrived "x", WorkerEv.closerFired,
            WorkerEv.closerFired] →
        (workerRun (Stream.close^[3]
            (⟨false, false, 0, "", true, false, 0, 0, 0⟩ : StreamState))
            [WorkerEv.eventArrived "x", WorkerEv.closerFired,
              WorkerEv.closerFired]).eventsClosedCount = 1 ∧
        (workerRun (Stream.close^[3]
            (⟨false, false, 0, "", true, false, 0, 0, 0⟩ : StreamState))
            [WorkerEv.eventArrived "x", WorkerEv.closerFired,
              WorkerEv.closerFired]).errorsClosedCount =
          (if (⟨false, false, 0, "", true, false, 0, 0, 0⟩ :
              StreamState).hasErrorsChannel then 1 else 0))) :=
  ⟨⟨by decide, by decide, by decide, by decide, by decide⟩,
    claim_C5_close_idempotent ⟨false, false, 0, "", true, false, 0, 0, 0⟩ 3
      [WorkerEv.eventArrived "x", WorkerEv.closerFired, WorkerEv.closerFired]
      (by decide) (by decide) (by decide) (by decide) (by decide)⟩

/-- The claim C7: `Stream.Restart` never blocks (it is a total state
transformation taking the select's default branch when a signal is
pending) and coalesces: from a state with at most one pending signal, any
number of calls leaves at most one signal pending (exactly one from a
clean state and at least one call), touching nothing but the pending
counter; a single consumption by the worker turns the single pending
signal into exactly one scheduled reconnect. -/
theorem claim_C7_restart_coalesces (s : StreamState) (k : Nat)
    (hb : s.restartPending ≤ 1) :
    (Stream.restart^[k] s).restartPending ≤ 1 ∧
    (1 ≤ k → s.restartPending = 0 →
      (Stream.restart^[k] s).restartPending = 1) ∧
    (Stream.restart^[k] s = s ∨
      Stream.restart^[k] s = { s with restartPending := 1 }) ∧
    (s.restartPending = 1 → s.workerExited = false →
      workerStep s WorkerEv.restarterFired =
        { s with restartPending := 0,
                 retriesScheduled := s.retriesScheduled + 1 }) := by
  have hcons : s.restartPending = 1 → s.workerExited = false →
      workerStep s WorkerEv.restarterFired =
        { s with restartPending := 0,
                 retriesScheduled := s.retriesScheduled + 1 } := by
    intro h1 hw
    unfold workerStep
    rw [if_neg (by simp [hw])]
    simp [h1]
  rcases Nat.le_one_iff_eq_zero_or_eq_one.mp hb with hp | hp
  · cases k with
    | zero =>
      refine ⟨by simpa using hb, ?_, Or.inl rfl, hcons⟩
      intro hk
      exact absurd hk (by simp)
    | succ m =>
      have hfix : Stream.restart s = { s with restartPending := 1 } := by
        unfold Stream.restart
        rw [if_pos (by rw [hp]; exact Nat.zero_lt_one)]
        rw [hp]
      have hfix2 : Stream.restart { s with restartPending := 1 } =
          { s with restartPending := 1 } := by
        unfold Stream.restart
        rw [if_neg (by simp)]
      have : Stream.restart^[m + 1] s = { s with restartPending := 1 } := by
        rw [Function.iterate_succ_apply, hfix]
        exact Function.iterate_fixed hfix2 m
      rw [this]
      exact ⟨by simp, fun _ _ => by simp, Or.inr rfl, hcons⟩
  · have hfix : Stream.restart s = s := by
      unfold Stream.restart
      rw [if_neg (by rw [hp]; simp)]
    have : Stream.restart^[k] s = s := Function.iterate_fixed hfix k
    rw [this]
    refine ⟨hb, ?_, Or.inl rfl, hcons⟩
    intro _ h0
    rw [h0] at hp
    exact absurd hp (by simp)

/-- Witness for `claim_C7_restart_coalesces`: five rapid `Restart` calls on
a fresh stream leave exactly one pending signal, and its consumption yields
one scheduled reconnect. -/
theorem claim_C7_restart_coalesces_witness :
    ((⟨false, false, 0, "", true, false, 0, 0, 0⟩ :
        StreamState).restartPending ≤ 1) ∧
    ((Stream.restart^[5] (⟨false, false, 0, "", true, false, 0, 0, 0⟩ :
        StreamState)).restartPending ≤ 1 ∧
      (1 ≤ 5 → (⟨false, false, 0, "", true, false, 0, 0, 0⟩ :
          StreamState).restartPending = 0 →
        (Stream.restart^[5] (⟨false, false, 0, "", true, false, 0, 0, 0⟩ :
          StreamState)).restartPending = 1) ∧
      (Stream.restart^[5] (⟨false, false, 0, "", true, false, 0, 0, 0⟩ :
          StreamState) = ⟨false, false, 0, "", true, false, 0, 0, 0⟩ ∨
        Stream.restart^[5] (⟨false, false, 0, "", true, false, 0, 0, 0⟩ :
          StreamState) =
          { (⟨false, false, 0, "", true, false, 0, 0, 0⟩ : StreamState) with
              restartPending := 1 }) ∧
      ((⟨false, false, 0, "", true, false, 0, 0, 0⟩ :
          StreamState).restartPending = 1 →
        (⟨false, false, 0, "", true, false, 0, 0, 0⟩ :
          StreamState).workerExited = false →
        workerStep ⟨false, false, 0, "", true, false, 0, 0, 0⟩
            WorkerEv.restarterFired =
          { (⟨false, false, 0, "", true, false, 0, 0, 0⟩ : StreamState) with
              restartPending := 0,
              retriesScheduled :=
                (⟨false, false, 0, "", true, false, 0, 0, 0⟩ :
                  StreamState).retriesScheduled + 1 })) :=
  ⟨by decide,
    claim_C7_restart_coalesces ⟨false, false, 0, "", true, false, 0, 0, 0⟩ 5
      (by decide)⟩

/-! ### Connection attempts (`Stream.connect`, stream.go lines 231-266) -/

/-- Go's `http.Header.Set`: replace any existing value of the key,
otherwise append it. -/
def setHeader (h : List (String × String)) (k v : String) :
    List (String × String) :=
  if h.any (fun p => p.1 == k) then
    h.map (fun p => if p.1 == k then (k, v) else p)
  else h ++ [(k, v)]

/-- Go's `http.Header.Get`: the value of the key, if present. -/
def getHeader (h : List (String × String)) (k : String) : Option String :=
  (h.find? (fun p => p.1 == k)).map Prod.snd

/-- Outcome of one `Stream.connect` call: success, a body-regeneration
failure (`req.GetBody()` returned an error), or a failure of the HTTP
transaction itself (`stream.c.Do`, an external collaborator). -/
inductive ConnectResult where
  | success
  | bodyError
  | httpError
  deriving DecidableEq, Repr

/-- The state `Stream.connect` reads and mutates: the header map of the
reused request template `stream.req` (mutated in place, so it persists
across attempts), the running last-event-id, the connection counter
(incremented only after a successful HTTP transaction), whether the
caller's request carries a body, and the body-regeneration factory
`req.GetBody` (`none`: no factory; `some b`: a factory that succeeds iff
`b`).  `regenerated` is a ghost flag recording whether this attempt
regenerated the body. -/
structure ConnState where
  headers : List (String × String)
  lastEventID : String
  connections : Nat
  hasBody : Bool
  getBody : Option Bool
  regenerated : Bool
  deriving DecidableEq, Repr

/-- Model of `Stream.connect` (stream.go lines 231-266): set the
`Cache-Control` and `Accept` headers, set `Last-Event-ID` if the running
last-event-id is non-empty (an empty value sets nothing and removes
nothing); then, on every attempt but the first, regenerate the body via
`req.GetBody` when such a factory exists - failing the attempt if the
factory errors, and silently proceeding when the request has a body but no
factory; finally run the HTTP transaction, whose outcome is the `httpOk`
parameter, and count the connection on success. -/
def Stream.connect (c : ConnState) (httpOk : Bool) :
    ConnState × ConnectResult :=
  let h1 := setHeader c.headers "Cache-Control" "no-cache"
  let h2 := setHeader h1 "Accept" "text/event-stream"
  let h3 := if 0 < c.lastEventID.length then
      setHeader h2 "Last-Event-ID" c.lastEventID
    else h2
  let c1 := { c with headers := h3, regenerated := false }
  if 0 < c.connections ∧ c.getBody.isSome then
    if c.getBody = some false then (c1, ConnectResult.bodyError)
    else
      let c2 := { c1 with regenerated := true }
      if httpOk then
        ({ c2 with connections := c2.connections + 1 }, ConnectResult.success)
      else (c2, ConnectResult.httpError)
  else
    if httpOk then
      ({ c1 with connections := c1.connections + 1 }, ConnectResult.success)
    else (c1, ConnectResult.httpError)

theorem map_setHeader_id (t : List (String × String)) (k v : String)
    (h : ∀ q ∈ t, ¬q.1 = k) :
    t.map (fun p => if p.1 == k then (k, v) else p) = t := by
  induction t with
  | nil => rfl
  | cons p t ih =>
    rw [List.map_cons, if_neg (by simp [h p (by simp)]),
      ih (fun q hq => h q (by simp [hq]))]

theorem find?_map_setHeader (t : List (String × String)) (k v : String) :
    (t.map (fun p => if p.1 == k then (k, v) else p)).find?
        (fun p => p.1 == k) =
      (t.find? (fun p => p.1 == k)).map (fun _ => (k, v)) := by
  induction t with
  | nil => rfl
  | cons p t ih =>
    by_cases hp : p.1 = k
    · rw [List.map_cons, if_pos (by simp [hp]),
        List.find?_cons_of_pos _ (by simp),
        List.find?_cons_of_pos _ (by simp [hp])]
      rfl
    · rw [List.map_cons, if_neg (by simp [hp]),
        List.find?_cons_of_neg _ (by simp [hp]),
        List.find?_cons_of_neg _ (by simp [hp])]
      exact ih

theorem getHeader_setHeader_self (h : List (String × String)) (k v : String) :
    getHeader (setHeader h k v) k = some v := by
  unfold setHeader getHeader
  by_cases ha : h.any (fun p => p.1 == k)
  · rw [if_pos ha, find?_map_setHeader]
    rcases List.any_eq_true.mp ha with ⟨q, hq, hqk⟩
    cases hf : h.find? (fun p => p.1 == k) with
    | some p => rfl
    | none =>
      exact absurd hqk (by simpa using List.find?_eq_none.mp hf q hq)
  · rw [if_neg ha]
    induction h with
    | nil =>
      rw [List.nil_append, List.find?_cons_of_pos _ (by simp)]
      rfl
    | cons p t ih =>
      have hp : ¬p.1 = k := by
        intro hc
        exact ha (List.any_eq_true.mpr ⟨p, by simp, by simp [hc]⟩)
      have ht : ¬t.any (fun q => q.1 == k) := by
        intro hc
        rcases List.any_eq_true.mp hc with ⟨q, hq, hqk⟩
        exact ha (List.any_eq_true.mpr ⟨q, by simp [hq], hqk⟩)
      rw [List.cons_append, List.find?_cons_of_neg _ (by simp [hp])]
      exact ih ht

theorem find?_ne_map_setHeader (t : List (String × String)) (k k' v : String)
    (hne : k' ≠ k) :
    (t.map (fun p => if p.1 == k' then (k', v) else p)).find?
        (fun p => p.1 == k) =
      t.find? (fun p => p.1 == k) := by
  induction t with
  | nil => rfl
  | cons p t ih =>
    by_cases hp : p.1 = k'
    · rw [List.map_cons, if_pos (by simp [hp]),
        List.find?_cons_of_neg _ (by simp [hne]),
        List.find?_cons_of_neg _ (by simp [hp, hne])]
      exact ih
    · rw [List.map_cons, if_neg (by simp [hp])]
      by_cases hpk : p.1 = k
      · rw [List.find?_cons_of_pos _ (by simp [hpk]),
          List.find?_cons_of_pos _ (by simp [hpk])]
      · rw [List.find?_cons_of_neg _ (by simp [hpk]),
          List.find?_cons_of_neg _ (by simp [hpk])]
        exact ih

theorem getHeader_setHeader_ne (h : List (String × String)) (k k' v : String)
    (hne : k' ≠ k) : getHeader (setHeader h k' v) k = getHeader h k := by
  unfold setHeader getHeader
  by_cases ha : h.any (fun p => p.1 == k')
  · rw [if_pos ha, find?_ne_map_setHeader _ _ _ _ hne]
  · rw [if_neg ha, List.find?_append]
    cases hf : h.find? (fun p => p.1 == k) with
    | some p => rfl
    | none =>
      rw [List.find?_cons_of_neg _ (by simp [hne]), List.find?_nil]
      rfl

theorem connect_headers (c : ConnState) (httpOk : Bool) :
    (Stream.connect c httpOk).1.headers =
      (if 0 < c.lastEventID.length then
        setHeader (setHeader (setHeader c.headers "Cache-Control" "no-cache")
          "Accept" "text/event-stream") "Last-Event-ID" c.lastEventID
      else
        setHeader (setHeader c.headers "Cache-Control" "no-cache")
          "Accept" "text/event-stream") := by
  by_cases hl : 0 < c.lastEventID.length <;>
    by_cases hc : 0 < c.connections <;>
      by_cases hgb : c.getBody.isSome = true <;>
        by_cases hbe : c.getBody = some false <;>
          by_cases hok : httpOk = true <;>
            simp [Stream.connect, hl, hc, hgb, hbe, hok]

/-- The claim C6 as amended: every connection attempt sets
`Cache-Control: no-cache` and `Accept: text/event-stream`, and sets
`Last-Event-ID` to the running last-event-id whenever that value is
non-empty at the time of the attempt; when it is empty, the attempt leaves
any existing `Last-Event-ID` header of the reused request untouched (the
code never deletes the header). -/
theorem claim_C6_headers_amended (c : ConnState) (httpOk : Bool) :
    getHeader (Stream.connect c httpOk).1.headers "Cache-Control" =
      some "no-cache" ∧
    getHeader (Stream.connect c httpOk).1.headers "Accept" =
      some "text/event-stream" ∧
    getHeader (Stream.connect c httpOk).1.headers "Last-Event-ID" =
      (if c.lastEventID = "" then getHeader c.headers "Last-Event-ID"
       else some c.lastEventID) := by
  rw [connect_headers]
  by_cases hl : 0 < c.lastEventID.length
  · have hne : ¬c.lastEventID = "" := by
      intro hc
      rw [hc] at hl
      exact absurd hl (by decide)
    rw [if_pos hl, if_neg hne]
    refine ⟨?_, ?_, ?_⟩
    · rw [getHeader_setHeader_ne _ _ _ _ (by decide),
        getHeader_setHeader_ne _ _ _ _ (by decide),
        getHeader_setHeader_self]
    · rw [getHeader_setHeader_ne _ _ _ _ (by decide),
        getHeader_setHeader_self]
    · rw [getHeader_setHeader_self]
  · have heq : c.lastEventID = "" := by
      have h0 : c.lastEventID.length = 0 := by omega
      cases hc : c.lastEventID with
      | mk data =>
        rw [hc] at h0
        cases data with
        | nil => rfl
        | cons a t => exact absurd h0 (by simp [String.length])
    rw [if_neg hl, if_pos heq]
    refine ⟨?_, ?_, ?_⟩
    · rw [getHeader_setHeader_ne _ _ _ _ (by decide),
        getHeader_setHeader_self]
    · rw [getHeader_setHeader_self]
    · rw [getHeader_setHeader_ne _ _ _ _ (by decide),
        getHeader_setHeader_ne _ _ _ _ (by decide)]

/-- Counterexample to claim C6 as stated: the `Last-Event-ID` header is not
carried "iff the running last-event-id is non-empty".  After an attempt
with a non-empty id, the worker can clear the running id (an event whose
`id` field is explicitly empty, stream.go line 353); the next attempt then
sets no header but also removes none, so the request still carries the
stale `Last-Event-ID: abc` while the running value is empty. -/
theorem claim_C6_headers_counterexample :
    let c1 := (Stream.connect ⟨[], "abc", 0, false, none, false⟩ true).1
    let c2pre : ConnState := { c1 with lastEventID := "" }
    let c2 := (Stream.connect c2pre true).1
    c2pre.lastEventID = "" ∧
    getHeader c2.headers "Last-Event-ID" = some "abc" ∧
    ¬((getHeader c2.headers "Last-Event-ID").isSome = true ↔
        c2pre.lastEventID ≠ "") := by
  decide

/-- The claim C8 as amended: on every attempt after the first, if the
request was created with a body-regeneration factory (`req.GetBody`), the
body is regenerated via the factory before the request is issued, and the
attempt fails at that step exactly when the factory returns an error.  (A
request with a body but no factory does not fail: the regeneration step is
simply skipped - see the counterexample.) -/
theorem claim_C8_body_regeneration_amended (c : ConnState) (httpOk b : Bool)
    (hconn : 0 < c.connections) (hgb : c.getBody = some b) :
    (Stream.connect c httpOk).1.regenerated = b ∧
    ((Stream.connect c httpOk).2 = ConnectResult.bodyError ↔ b = false) := by
  cases b with
  | false => simp [Stream.connect, hconn, hgb]
  | true =>
    by_cases hok : httpOk = true <;> simp [Stream.connect, hconn, hgb, hok]

/-- Witness for `claim_C8_body_regeneration_amended` at a second attempt
with a succeeding factory. -/
theorem claim_C8_body_regeneration_witness :
    (0 < (1 : Nat) ∧
      (⟨[], "", 1, true, some true, false⟩ : ConnState).getBody = some true) ∧
    ((Stream.connect ⟨[], "", 1, true, some true, false⟩ true).1.regenerated =
        true ∧
      ((Stream.connect ⟨[], "", 1, true, some true, false⟩ true).2 =
          ConnectResult.bodyError ↔ true = false)) :=
  ⟨⟨by decide, rfl⟩,
    claim_C8_body_regeneration_amended ⟨[], "", 1, true, some true, false⟩
      true true (by decide) rfl⟩

/-- Counterexample to claim C8 as stated: on a second attempt with a
request that has a body but no regeneration factory, the attempt does not
fail - the body-regeneration step is skipped entirely (the code only
checks `req.GetBody != nil`, never that a body exists without a factory)
and the attempt succeeds when the HTTP transaction does. -/
theorem claim_C8_no_factory_counterexample :
    (Stream.connect ⟨[], "", 1, true, none, false⟩ true).2 ≠
        ConnectResult.bodyError ∧
    (Stream.connect ⟨[], "", 1, true, none, false⟩ true).2 =
        ConnectResult.success ∧
    (Stream.connect ⟨[], "", 1, true, none, false⟩ true).1.regenerated =
        false := by
  decide

end Eventsource
